import Mathlib

/-!
Verification of the two core engines of the `nbpg_extension` repository against
its specification.

The measurement aggregation engine is `get_aggregated_measurement` in
`src/get_agg_measurements.py`; the visit consolidation engine is
`calculate_HCRU` in `src/get_hcru.py`.  Both operate on in-memory tabular
data (pandas frames); here a frame is a list of typed rows.  Dates are day
numbers (`ℤ`), so subtracting two dates is the number of days between them,
matching `(a - b).dt.days` on pandas datetimes.  Measurement values are
integer scale scores (`ℤ`); statistics that can produce non-integers (mean,
median) are represented as exact fractions (numerator, denominator) and the
final `round(x, 0).astype(int)` of the source is numpy's round-half-to-even
on that fraction.
-/

/-- One raw measurement row: `person_id`, `measurement_date`, `value`
(columns of the frame returned by the `nb.get_CGIS` / `get_CGII` / `get_GAF`
fetchers in `get_agg_measurements.py`). -/
structure MRow where
  person : ℕ
  mdate : ℤ
  value : ℤ
deriving DecidableEq

/-- The recognized aggregation policies, the exact list on line 71 of
`get_agg_measurements.py`:
`['mean','median','mode','max','min','mode_median','mode_mean','mode_min','mode_max']`.
Note that the source list does contain the bare string `'mode'`. -/
def validAggs : List String :=
  ["mean", "median", "mode", "max", "min",
   "mode_median", "mode_mean", "mode_min", "mode_max"]

/-- Ascending sort of integers (pandas sorts group values ascending). -/
def sortInt (l : List ℤ) : List ℤ :=
  l.insertionSort (· ≤ ·)

/-- Ascending sort of naturals (pandas `groupby` sorts group keys ascending). -/
def sortNat (l : List ℕ) : List ℕ :=
  l.insertionSort (· ≤ ·)

/-- Lexicographic order on the `(person_id, measurement_date)` group key. -/
def key2LE (a b : ℕ × ℤ) : Prop :=
  a.1 < b.1 ∨ (a.1 = b.1 ∧ a.2 ≤ b.2)

instance : DecidableRel key2LE := fun a b => by
  unfold key2LE
  exact inferInstance

/-- Ascending sort of `(person_id, measurement_date)` keys. -/
def sortKey2 (l : List (ℕ × ℤ)) : List (ℕ × ℤ) :=
  l.insertionSort key2LE

/-- Mean of a list of integer values as an exact fraction `(sum, len)`
(`df_groupby.mean()`). -/
def meanFrac (l : List ℤ) : ℤ × ℤ :=
  (l.sum, (l.length : ℤ))

/-- Median of a list of integer values as an exact fraction
(`df_groupby.median()`): middle element of the ascending sort, or the average
of the two middle elements for an even count. -/
def medianFrac (l : List ℤ) : ℤ × ℤ :=
  let s := sortInt l
  if s.length % 2 = 1 then (s.getD (s.length / 2) 0, 1)
  else if s.length = 0 then (0, 1)
  else (s.getD (s.length / 2 - 1) 0 + s.getD (s.length / 2) 0, 2)

/-- Maximum of a list of integer values (`df_groupby.max()`); groups are
nonempty, the base value is only a formal default. -/
def maxZ (l : List ℤ) : ℤ :=
  match l with
  | [] => 0
  | a :: t => t.foldl max a

/-- Minimum of a list of integer values (`df_groupby.min()`). -/
def minZ (l : List ℤ) : ℤ :=
  match l with
  | [] => 0
  | a :: t => t.foldl min a

/-- Largest multiplicity of any value in the list. -/
def maxFreq (l : List ℤ) : ℕ :=
  (l.dedup.map (fun v => l.count v)).foldr max 0

/-- The modal values of a group, ascending: `pd.Series.mode` returns every
value whose multiplicity is maximal, sorted ascending
(line 105 of `get_agg_measurements.py`). -/
def modeSet (l : List ℤ) : List ℤ :=
  (sortInt l.dedup).filter (fun v => l.count v = maxFreq l)

/-- Round-half-to-even of the exact fraction `n / d` (with `d > 0` for every
fraction the engine builds): this is numpy's rounding used by
`round(agg_df, 0).astype(int)` on line 117 of `get_agg_measurements.py`. -/
def rheF (f : ℤ × ℤ) : ℤ :=
  let q := f.1 / f.2
  let r := f.1 % f.2
  if 2 * r < f.2 then q
  else if f.2 < 2 * r then q + 1
  else if Even q then q else q + 1

/-- The per-group aggregate as an exact fraction, following the dispatch on
lines 95-115 of `get_agg_measurements.py`.  The four plain statistics apply
directly; the four `mode_`-prefixed ones apply the secondary statistic to the
modal values.  No branch assigns a value for the bare policy `'mode'`
(mirroring that no `if` in the source assigns `agg_df` for it), hence `none`
there. -/
def aggValF (agg : String) (l : List ℤ) : Option (ℤ × ℤ) :=
  if agg = "mean" then some (meanFrac l)
  else if agg = "median" then some (medianFrac l)
  else if agg = "max" then some (maxZ l, 1)
  else if agg = "min" then some (minZ l, 1)
  else if agg = "mode_median" then some (medianFrac (modeSet l))
  else if agg = "mode_mean" then some (meanFrac (modeSet l))
  else if agg = "mode_min" then some (minZ (modeSet l), 1)
  else if agg = "mode_max" then some (maxZ (modeSet l), 1)
  else none

/-- The rounded integer aggregate of one group
(`round(agg_df, 0).astype(int)`, line 117). -/
def cleanVal (agg : String) (l : List ℤ) : ℤ :=
  rheF ((aggValF agg l).getD (0, 1))

/-- Distinct `person_id`s present in the input (`df.person_id.nunique()`
counts this list). -/
def personsOf (df : List MRow) : List ℕ :=
  (df.map (fun r => r.person)).dedup

/-- Distinct `(person_id, measurement_date)` keys present in the input. -/
def keys2Of (df : List MRow) : List (ℕ × ℤ) :=
  (df.map (fun r => (r.person, r.mdate))).dedup

/-- Aggregated frame when grouping by `person_id` alone (`change=False`):
one row per distinct person, keys ascending as pandas `groupby` sorts them
(lines 87-117 of `get_agg_measurements.py`). -/
def aggFrame1 (agg : String) (df : List MRow) : List (ℕ × ℤ) :=
  (sortNat (personsOf df)).map
    (fun p => (p, cleanVal agg ((df.filter (fun r => r.person = p)).map (fun r => r.value))))

/-- Aggregated frame when grouping by `(person_id, measurement_date)`
(`change=True`): one row per distinct key, keys ascending. -/
def aggFrame2 (agg : String) (df : List MRow) : List ((ℕ × ℤ) × ℤ) :=
  (sortKey2 (keys2Of df)).map
    (fun k => (k, cleanVal agg
      ((df.filter (fun r => r.person = k.1 ∧ r.mdate = k.2)).map (fun r => r.value))))

/-- One row of the change-tracking output (lines 122-136 of
`get_agg_measurements.py`): columns `person_id`, `prev_measurement_date`,
`prev_value`, `measurement_date`, `value`, `days_between_change`,
`value_change`. -/
structure DeltaRow where
  person : ℕ
  prevDate : ℤ
  prevValue : ℤ
  curDate : ℤ
  curValue : ℤ
  daysBetween : ℤ
  valueChange : ℤ
deriving DecidableEq

/-- The change-tracking pass (lines 122-136 of `get_agg_measurements.py`):
`shift(1)` pairs every aggregated row with the immediately preceding row of
the (key-sorted) aggregated frame; `np.where(person == prev_person, ..)`
computes date and value differences only for pairs inside one patient, and
`dropna(subset=['value_change'])` keeps exactly those pairs. -/
def mkDeltas : List ((ℕ × ℤ) × ℤ) → List DeltaRow
  | [] => []
  | [_] => []
  | (p, v) :: (q, w) :: t =>
      (if q.1 = p.1 then
        [⟨q.1, p.2, v, q.2, w, q.2 - p.2, w - v⟩]
      else []) ++ mkDeltas ((q, w) :: t)

/-- Possible outcomes of a call to `get_aggregated_measurement`:
`rejected` is the soft-fail branch on lines 71-73 (a `UserWarning`
diagnostic is emitted and `None` is returned, no exception);
`unboundLocal` is the `UnboundLocalError` raised on line 117 when no
aggregation branch assigned `agg_df`; `assertFailed` is the
`AssertionError` of the post-condition on line 120; the remaining two
constructors carry the returned frame. -/
inductive AggOutcome where
  | rejected : AggOutcome
  | unboundLocal : AggOutcome
  | assertFailed : AggOutcome
  | aggregated : List (ℕ × ℤ) → AggOutcome
  | deltas : List DeltaRow → AggOutcome
deriving DecidableEq

/-- The aggregation engine, `get_aggregated_measurement` of
`src/get_agg_measurements.py` (the fetch on lines 80-85 is external; `df` is
the fetched frame).  Control flow: the policy guard on line 71; the
`'mode'` policy passes the guard but no branch assigns `agg_df`, so line 117
raises `UnboundLocalError`; with `change=False` the assert on line 120
compares the output length with `df.person_id.nunique()`; with `change=True`
lines 122-136 derive the delta rows. -/
def get_aggregated_measurement (agg : String) (change : Bool) (df : List MRow) : AggOutcome :=
  if agg ∈ validAggs then
    if agg = "mode" then AggOutcome.unboundLocal
    else if change then AggOutcome.deltas (mkDeltas (aggFrame2 agg df))
    else if (aggFrame1 agg df).length = ((df.map (fun r => r.person)).dedup).length then
      AggOutcome.aggregated (aggFrame1 agg df)
    else AggOutcome.assertFailed
  else AggOutcome.rejected

/-- C6: an aggregation policy outside the recognized list makes
`get_aggregated_measurement` warn ("Aggregation method not found.") and
return `None` (lines 71-73), the `rejected` outcome; no exception is
raised. -/
theorem unrecognized_policy_soft_fails (agg : String) (change : Bool) (df : List MRow)
    (h : agg ∉ validAggs) :
    get_aggregated_measurement agg change df = AggOutcome.rejected := by
  unfold get_aggregated_measurement
  rw [if_neg h]

/-- Witness for C6: the policy string "average" is not recognized and the
call soft-fails. -/
theorem unrecognized_policy_soft_fails_witness :
    "average" ∉ validAggs ∧
      get_aggregated_measurement "average" false [⟨1, 0, 3⟩] = AggOutcome.rejected :=
  ⟨by decide, unrecognized_policy_soft_fails "average" false [⟨1, 0, 3⟩] (by decide)⟩

/-- C7 (code bug): the bare policy `'mode'` is a member of the accepted list
on line 71 of `get_agg_measurements.py` (the docstring's option list and the
spec both exclude it), so the guard does not reject it; since no aggregation
branch assigns `agg_df` for it, the call then aborts with
`UnboundLocalError` on line 117 instead of the documented soft-fail. -/
theorem mode_alone_accepted_then_crashes :
    "mode" ∈ validAggs ∧
      get_aggregated_measurement "mode" false [⟨1, 1, 3⟩] = AggOutcome.unboundLocal := by
  constructor
  · decide
  · decide

/-- C1: for every input frame and every valid policy other than the broken
`'mode'`, the aggregated frame has exactly one row per distinct group key
present in the input — `person_id` for `change=False`, and
`(person_id, measurement_date)` for `change=True` — and consequently the
post-condition assert of line 120 passes, so the `change=False` call returns
the aggregated frame instead of aborting. -/
theorem agg_one_row_per_group_key (agg : String) (df : List MRow)
    (h1 : agg ∈ validAggs) (h2 : agg ≠ "mode") :
    (aggFrame1 agg df).length = ((df.map (fun r => r.person)).dedup).length ∧
    (aggFrame2 agg df).length = ((df.map (fun r => (r.person, r.mdate))).dedup).length ∧
    get_aggregated_measurement agg false df = AggOutcome.aggregated (aggFrame1 agg df) := by
  have L1 : (aggFrame1 agg df).length = ((df.map (fun r => r.person)).dedup).length := by
    unfold aggFrame1 sortNat personsOf
    rw [List.length_map, List.length_insertionSort]
  have L2 : (aggFrame2 agg df).length
      = ((df.map (fun r => (r.person, r.mdate))).dedup).length := by
    unfold aggFrame2 sortKey2 keys2Of
    rw [List.length_map, List.length_insertionSort]
  refine ⟨L1, L2, ?_⟩
  unfold get_aggregated_measurement
  rw [if_pos h1, if_neg h2, if_neg Bool.false_ne_true, if_pos L1]

/-- Witness for C1 at a concrete frame with a duplicated group key and the
policy `mean`. -/
theorem agg_one_row_per_group_key_witness :
    (aggFrame1 "mean" [⟨1, 2, 3⟩, ⟨1, 2, 5⟩, ⟨2, 0, 4⟩]).length
        = ((([⟨1, 2, 3⟩, ⟨1, 2, 5⟩, ⟨2, 0, 4⟩] : List MRow).map (fun r => r.person)).dedup).length ∧
      (aggFrame2 "mean" [⟨1, 2, 3⟩, ⟨1, 2, 5⟩, ⟨2, 0, 4⟩]).length
        = ((([⟨1, 2, 3⟩, ⟨1, 2, 5⟩, ⟨2, 0, 4⟩] : List MRow).map (fun r => (r.person, r.mdate))).dedup).length ∧
      get_aggregated_measurement "mean" false [⟨1, 2, 3⟩, ⟨1, 2, 5⟩, ⟨2, 0, 4⟩]
        = AggOutcome.aggregated (aggFrame1 "mean" [⟨1, 2, 3⟩, ⟨1, 2, 5⟩, ⟨2, 0, 4⟩]) :=
  agg_one_row_per_group_key "mean" [⟨1, 2, 3⟩, ⟨1, 2, 5⟩, ⟨2, 0, 4⟩] (by decide) (by decide)

/-- Membership in the modal set is exactly being a value of the group whose
multiplicity is maximal. -/
theorem mem_modeSet (l : List ℤ) (v : ℤ) :
    v ∈ modeSet l ↔ v ∈ l ∧ l.count v = maxFreq l := by
  unfold modeSet sortInt
  simp [List.mem_filter, List.mem_insertionSort, List.mem_dedup]

/-- Round-half-to-even of an integer is that integer. -/
theorem rheF_int (v : ℤ) : rheF (v, 1) = v := by
  unfold rheF
  norm_num

/-- The median of a one-element group is that element. -/
theorem medianFrac_single (v : ℤ) : medianFrac [v] = (v, 1) := by
  simp [medianFrac, sortInt, List.insertionSort, List.orderedInsert]

/-- The mean of a one-element group is that element. -/
theorem meanFrac_single (v : ℤ) : meanFrac [v] = (v, 1) := by
  unfold meanFrac
  simp

/-- When the modal set is a singleton, every `mode_`-prefixed policy returns
that value, whatever the secondary statistic is. -/
theorem cleanVal_mode_single (l : List ℤ) (v : ℤ) (h : modeSet l = [v]) :
    cleanVal "mode_median" l = v ∧ cleanVal "mode_mean" l = v ∧
    cleanVal "mode_min" l = v ∧ cleanVal "mode_max" l = v := by
  have e1 : cleanVal "mode_median" l = rheF (medianFrac (modeSet l)) := rfl
  have e2 : cleanVal "mode_mean" l = rheF (meanFrac (modeSet l)) := rfl
  have e3 : cleanVal "mode_min" l = rheF (minZ (modeSet l), 1) := rfl
  have e4 : cleanVal "mode_max" l = rheF (maxZ (modeSet l), 1) := rfl
  rw [e1, e2, e3, e4, h, medianFrac_single, meanFrac_single]
  have e5 : minZ [v] = v := rfl
  have e6 : maxZ [v] = v := rfl
  rw [e5, e6]
  exact ⟨rheF_int v, rheF_int v, rheF_int v, rheF_int v⟩

/-- C3: for the `mode_`-prefixed policies the engine computes the set of
modal values (values of maximal multiplicity in the group, by
`pd.Series.mode`); the named secondary statistic is applied to that set, and
a singleton modal set makes every such policy return the unique mode; on
the group `[3,3,5,5,7]` the modal set is `{3,5}` and `mode_median`,
`mode_max`, `mode_min` give `4`, `5`, `3`. -/
theorem mode_tiebreak_policy (vals : List ℤ) (v : ℤ) :
    (v ∈ modeSet vals ↔ v ∈ vals ∧ vals.count v = maxFreq vals) ∧
    (modeSet vals = [v] →
      cleanVal "mode_median" vals = v ∧ cleanVal "mode_mean" vals = v ∧
      cleanVal "mode_min" vals = v ∧ cleanVal "mode_max" vals = v) ∧
    cleanVal "mode_median" vals = rheF (medianFrac (modeSet vals)) ∧
    cleanVal "mode_mean" vals = rheF (meanFrac (modeSet vals)) ∧
    cleanVal "mode_min" vals = rheF (minZ (modeSet vals), 1) ∧
    cleanVal "mode_max" vals = rheF (maxZ (modeSet vals), 1) ∧
    modeSet [3, 3, 5, 5, 7] = [3, 5] ∧
    cleanVal "mode_median" [3, 3, 5, 5, 7] = 4 ∧
    cleanVal "mode_max" [3, 3, 5, 5, 7] = 5 ∧
    cleanVal "mode_min" [3, 3, 5, 5, 7] = 3 := by
  refine ⟨mem_modeSet vals v, cleanVal_mode_single vals v,
    rfl, rfl, rfl, rfl, ?_, ?_, ?_, ?_⟩ <;> decide

/-- Witness for C3: the group `[4,4,9]` has the single mode `4`, and every
`mode_`-prefixed policy returns it. -/
theorem mode_tiebreak_policy_witness :
    cleanVal "mode_median" [4, 4, 9] = 4 ∧ cleanVal "mode_mean" [4, 4, 9] = 4 ∧
    cleanVal "mode_min" [4, 4, 9] = 4 ∧ cleanVal "mode_max" [4, 4, 9] = 4 :=
  (mode_tiebreak_policy [4, 4, 9] 4).2.1 (by decide)

/-- Every delta row is generated from two rows of the aggregated frame that
are adjacent in sorted order and belong to the same patient, and its
`days_between_change` and `value_change` columns are the date and value
differences of that pair. -/
theorem mkDeltas_mem_structure :
    ∀ (rows : List ((ℕ × ℤ) × ℤ)) (d : DeltaRow), d ∈ mkDeltas rows →
      d.daysBetween = d.curDate - d.prevDate ∧
      d.valueChange = d.curValue - d.prevValue ∧
      ∃ i : ℕ, ∃ h : i + 1 < rows.length,
        rows.get ⟨i, Nat.lt_of_succ_lt h⟩ = ((d.person, d.prevDate), d.prevValue) ∧
        rows.get ⟨i + 1, h⟩ = ((d.person, d.curDate), d.curValue) := by
  intro rows
  induction rows with
  | nil => intro d hd; simp [mkDeltas] at hd
  | cons a t ih =>
    cases t with
    | nil =>
      intro d hd
      obtain ⟨p, v⟩ := a
      simp [mkDeltas] at hd
    | cons b t2 =>
      intro d hd
      obtain ⟨p, v⟩ := a
      obtain ⟨q, w⟩ := b
      rw [mkDeltas] at hd
      rcases List.mem_append.mp hd with h1 | h2
      · by_cases hpq : q.1 = p.1
        · rw [if_pos hpq] at h1
          have hd1 : d = ⟨q.1, p.2, v, q.2, w, q.2 - p.2, w - v⟩ := List.mem_singleton.mp h1
          subst hd1
          refine ⟨rfl, rfl, 0, ?_, ?_, rfl⟩
          · simp [List.length_cons]
          · show (p, v) = ((q.1, p.2), v)
            rw [hpq]
        · rw [if_neg hpq] at h1
          simp at h1
      · obtain ⟨e1, e2, i, h, g1, g2⟩ := ih d h2
        refine ⟨e1, e2, i + 1, ?_, ?_, ?_⟩
        · simpa [List.length_cons] using Nat.succ_lt_succ h
        · exact g1
        · exact g2

/-- Dropping the head of a list cannot increase the length of a filter. -/
theorem length_filter_le_cons {α : Type} (f : α → Bool) (a : α) (l : List α) :
    (l.filter f).length ≤ ((a :: l).filter f).length := by
  rw [List.filter_cons]
  split
  · rw [List.length_cons]
    exact Nat.le_succ _
  · exact le_refl _

/-- A patient with at most one row in the aggregated frame contributes no
delta row: the `dropna` filtering removes every pairing that crosses a
patient boundary. -/
theorem mkDeltas_one_reading :
    ∀ (rows : List ((ℕ × ℤ) × ℤ)) (p : ℕ),
      (rows.filter (fun r => r.1.1 = p)).length ≤ 1 →
      ∀ d ∈ mkDeltas rows, d.person ≠ p := by
  intro rows
  induction rows with
  | nil => intro p hp d hd; simp [mkDeltas] at hd
  | cons a t ih =>
    intro p hp d hd
    cases t with
    | nil =>
      obtain ⟨pa, v⟩ := a
      simp [mkDeltas] at hd
    | cons b t2 =>
      obtain ⟨pa, v⟩ := a
      obtain ⟨q, w⟩ := b
      rw [mkDeltas] at hd
      rcases List.mem_append.mp hd with h1 | h2
      · by_cases hpq : q.1 = pa.1
        · rw [if_pos hpq] at h1
          have hd1 : d = ⟨q.1, pa.2, v, q.2, w, q.2 - pa.2, w - v⟩ := List.mem_singleton.mp h1
          subst hd1
          intro hdp
          have hfa : pa.1 = p := hpq ▸ hdp
          have hfb : q.1 = p := hdp
          simp [List.filter_cons, hfa, hfb] at hp
        · rw [if_neg hpq] at h1
          simp at h1
      · refine ih p ?_ d h2
        exact le_trans (length_filter_le_cons _ _ _) hp

/-- C4: with change-tracking on, the call returns the delta rows built from
the key-sorted aggregated frame; every returned row pairs two rows of the
same patient that are adjacent in that order and carries
`days_between_change = current date - prior date` and
`value_change = current value - prior value`; a patient with at most one
aggregated reading contributes no delta row. -/
theorem change_tracking_deltas (agg : String) (df : List MRow)
    (h1 : agg ∈ validAggs) (h2 : agg ≠ "mode") :
    get_aggregated_measurement agg true df = AggOutcome.deltas (mkDeltas (aggFrame2 agg df)) ∧
    (∀ d ∈ mkDeltas (aggFrame2 agg df),
      d.daysBetween = d.curDate - d.prevDate ∧
      d.valueChange = d.curValue - d.prevValue ∧
      ∃ i : ℕ, ∃ h : i + 1 < (aggFrame2 agg df).length,
        (aggFrame2 agg df).get ⟨i, Nat.lt_of_succ_lt h⟩ = ((d.person, d.prevDate), d.prevValue) ∧
        (aggFrame2 agg df).get ⟨i + 1, h⟩ = ((d.person, d.curDate), d.curValue)) ∧
    (∀ p : ℕ, ((aggFrame2 agg df).filter (fun r => r.1.1 = p)).length ≤ 1 →
      ∀ d ∈ mkDeltas (aggFrame2 agg df), d.person ≠ p) := by
  refine ⟨?_, fun d hd => mkDeltas_mem_structure _ d hd,
    fun p hp => mkDeltas_one_reading _ p hp⟩
  unfold get_aggregated_measurement
  rw [if_pos h1, if_neg h2, if_pos rfl]

/-- Witness for C4 at the spec's example: patient 1 with aggregated readings
(day 1, 4), (day 5, 6), (day 10, 6) yields exactly the two delta rows
(days_between 4, change 2) and (days_between 5, change 0). -/
theorem change_tracking_deltas_witness :
    get_aggregated_measurement "mode_median" true [⟨1, 1, 4⟩, ⟨1, 5, 6⟩, ⟨1, 10, 6⟩]
      = AggOutcome.deltas [⟨1, 1, 4, 5, 6, 4, 2⟩, ⟨1, 5, 6, 10, 6, 5, 0⟩] := by
  have h := change_tracking_deltas "mode_median" [⟨1, 1, 4⟩, ⟨1, 5, 6⟩, ⟨1, 10, 6⟩]
    (by decide) (by decide)
  rw [h.1]
  decide

/-!
Visit consolidation engine: `calculate_HCRU` in `src/get_hcru.py`.  Per label
of `visit_mapping`, the fetched visit rows are inner-merged with the cohort
frame, restricted to the per-patient window, sorted, de-duplicated, the
per-patient count of distinct start dates is taken, and the count is
left-merged back onto the cohort with `fillna(0)` over the whole frame.
-/

/-- One raw visit row: `person_id`, `visit_start_date`, `visit_end_date`
(columns of the frame returned by `nb.get_visit`). -/
structure VRow where
  person : ℕ
  vstart : ℤ
  vend : ℤ
deriving DecidableEq

/-- Order of `sort_values(['person_id', 'visit_start_date', 'visit_end_date'])`
on line 81 of `get_hcru.py`: ascending lexicographic. -/
def visitLE (a b : VRow) : Prop :=
  a.person < b.person ∨ (a.person = b.person ∧
    (a.vstart < b.vstart ∨ (a.vstart = b.vstart ∧ a.vend ≤ b.vend)))

instance : DecidableRel visitLE := fun a b => by
  unfold visitLE
  exact inferInstance

/-- Ascending sort of visit rows (line 81 of `get_hcru.py`). -/
def sortVisits (l : List VRow) : List VRow :=
  l.insertionSort visitLE

/-- Pandas `drop_duplicates(subset=..)` with the default `keep='first'`:
scan the frame in order and keep only rows whose key has not been seen. -/
def keepFirstBy (f : VRow → ℕ × ℤ) (seen : List (ℕ × ℤ)) : List VRow → List VRow
  | [] => []
  | a :: t =>
      if f a ∈ seen then keepFirstBy f seen t
      else a :: keepFirstBy f (f a :: seen) t

/-- `drop_duplicates(subset=['person_id', 'visit_start_date'])`
(line 83 of `get_hcru.py`). -/
def dedupStartOf (l : List VRow) : List VRow :=
  keepFirstBy (fun r => (r.person, r.vstart)) [] l

/-- `drop_duplicates(subset=['person_id', 'visit_end_date'])`
(line 85 of `get_hcru.py`). -/
def dedupEndOf (l : List VRow) : List VRow :=
  keepFirstBy (fun r => (r.person, r.vend)) [] l

/-- Lines 87-91 of `get_hcru.py`: `shift(-1)` attaches to each row the next
row of the current frame, and the boolean mask removes a row exactly when
the next row has the same `person_id` and its start date lies in the row's
own `[visit_start_date, visit_end_date]` range.  The mask is evaluated
simultaneously against the original successors, so the removed row is the
earlier (containing) one. -/
def containFilter : List VRow → List VRow
  | [] => []
  | [a] => [a]
  | a :: b :: t =>
      (if b.person = a.person ∧ a.vstart ≤ b.vstart ∧ b.vstart ≤ a.vend then []
       else [a]) ++ containFilter (b :: t)

/-- The full row-deduplication pipeline of lines 81-91 of `get_hcru.py`:
sort, drop duplicate `(person, start)`, drop duplicate `(person, end)`, then
the successor-containment mask. -/
def consolidateVisits (l : List VRow) : List VRow :=
  containFilter (dedupEndOf (dedupStartOf (sortVisits l)))

/-- Line 93 of `get_hcru.py`:
`groupby('person_id').agg({'visit_start_date':'nunique'})` — one output pair
per distinct patient (ascending, as pandas sorts group keys), counting that
patient's distinct start dates. -/
def countsOf (l : List VRow) : List (ℕ × ℕ) :=
  (sortNat ((l.map (fun r => r.person)).dedup)).map
    (fun p => (p, ((l.filter (fun r => r.person = p)).map (fun r => r.vstart)).dedup.length))

/-- Dropping a row whose successor starts inside it: when the next row `b`
has the same patient and `b.vstart ∈ [a.vstart, a.vend]`, the mask of
lines 89-91 removes the earlier row `a` and keeps `b`. -/
theorem containFilter_drop_containing (a b : VRow) (t : List VRow)
    (h1 : b.person = a.person) (h2 : a.vstart ≤ b.vstart) (h3 : b.vstart ≤ a.vend) :
    containFilter (a :: b :: t) = containFilter (b :: t) := by
  rw [containFilter, if_pos ⟨h1, h2, h3⟩]
  rfl

/-- C2 counterexample: the three rows (1/1-1/10), (1/2-1/3), (1/5-1/6) of one
patient all overlap the first row, so under the claim ("rows whose date
ranges overlap or touch are counted as a single encounter") the consolidated
count would be 1; the code counts 2, because the mask only compares each row
with its immediate successor and the long containing row is itself deleted. -/
theorem overlap_merge_not_transitive :
    countsOf (consolidateVisits [⟨1, 1, 10⟩, ⟨1, 2, 3⟩, ⟨1, 5, 6⟩]) = [(1, 2)] ∧
    ¬ countsOf (consolidateVisits [⟨1, 1, 10⟩, ⟨1, 2, 3⟩, ⟨1, 5, 6⟩]) = [(1, 1)] := by
  constructor
  · decide
  · decide

/-- C2 amended: merging is only pairwise-consecutive — a row is merged away
exactly when the next row in sorted order starts within its range; the
claim's concrete example, visits (P1, 1/1-1/5) and (P1, 1/3-1/3) under a
single merged label, still yields a consolidated encounter count of 1. -/
theorem consecutive_overlap_merged (a b : VRow) (t : List VRow)
    (h1 : b.person = a.person) (h2 : a.vstart ≤ b.vstart) (h3 : b.vstart ≤ a.vend) :
    containFilter (a :: b :: t) = containFilter (b :: t) ∧
    countsOf (consolidateVisits [⟨1, 1, 5⟩, ⟨1, 3, 3⟩]) = [(1, 1)] :=
  ⟨containFilter_drop_containing a b t h1 h2 h3, by decide⟩

/-- Witness for the amended C2. -/
theorem consecutive_overlap_merged_witness :
    containFilter [⟨1, 1, 5⟩, ⟨1, 3, 3⟩] = containFilter [⟨1, 3, 3⟩] ∧
    countsOf (consolidateVisits [⟨1, 1, 5⟩, ⟨1, 3, 3⟩]) = [(1, 1)] :=
  consecutive_overlap_merged ⟨1, 1, 5⟩ ⟨1, 3, 3⟩ [] (by decide) (by decide) (by decide)

/-- C9 counterexample: for rows (1/1-1/5) and (1/3-1/3) of one patient, the
claim says the contained row (1/3-1/3) is dropped and the earliest-starting
row survives; the code drops the containing row and keeps (1/3-1/3). -/
theorem contained_row_survives :
    consolidateVisits [⟨1, 1, 5⟩, ⟨1, 3, 3⟩] = [⟨1, 3, 3⟩] ∧
    ¬ consolidateVisits [⟨1, 1, 5⟩, ⟨1, 3, 3⟩] = [⟨1, 1, 5⟩] := by
  constructor
  · decide
  · decide

/-- `keepFirstBy` leaves no two rows with the same key, and never emits a key
from `seen`. -/
theorem keepFirstBy_nodup (f : VRow → ℕ × ℤ) :
    ∀ (seen : List (ℕ × ℤ)) (l : List VRow),
      ((keepFirstBy f seen l).map f).Nodup ∧ ∀ k ∈ (keepFirstBy f seen l).map f, k ∉ seen := by
  intro seen l
  induction l generalizing seen with
  | nil => simp [keepFirstBy]
  | cons a t ih =>
    rw [keepFirstBy]
    by_cases h : f a ∈ seen
    · rw [if_pos h]
      exact ih seen
    · rw [if_neg h]
      obtain ⟨hn, hs⟩ := ih (f a :: seen)
      refine ⟨?_, ?_⟩
      · rw [List.map_cons, List.nodup_cons]
        refine ⟨fun hmem => (hs _ hmem) (List.mem_cons_self _ _), hn⟩
      · intro k hk
        rw [List.map_cons] at hk
        rcases List.mem_cons.mp hk with h1 | h1
        · exact h1 ▸ h
        · intro hkseen
          exact (hs k h1) (List.mem_cons_of_mem _ hkseen)

/-- C9 amended: after the ascending sort, rows sharing `(person, start)` or
`(person, end)` with an already-kept row are dropped (the first, i.e.
earliest-sorted, occurrence of each key is the one kept), and when the next
row's start falls within a row's `[start, end]` range for the same patient
(boundaries included) the earlier containing row is the one dropped, so the
later-starting contained row survives — as the concrete two-row input
shows. -/
theorem crossdup_resolution (l : List VRow) (a b : VRow) (t : List VRow)
    (h1 : b.person = a.person) (h2 : a.vstart ≤ b.vstart) (h3 : b.vstart ≤ a.vend) :
    ((dedupStartOf l).map (fun r => (r.person, r.vstart))).Nodup ∧
    ((dedupEndOf l).map (fun r => (r.person, r.vend))).Nodup ∧
    containFilter (a :: b :: t) = containFilter (b :: t) ∧
    consolidateVisits [⟨1, 1, 5⟩, ⟨1, 3, 3⟩] = [⟨1, 3, 3⟩] :=
  ⟨(keepFirstBy_nodup _ [] l).1, (keepFirstBy_nodup _ [] _).1,
    containFilter_drop_containing a b t h1 h2 h3, by decide⟩

/-- Witness for the amended C9. -/
theorem crossdup_resolution_witness :
    ((dedupStartOf [⟨1, 1, 5⟩, ⟨1, 1, 7⟩]).map (fun r => (r.person, r.vstart))).Nodup ∧
    ((dedupEndOf [⟨1, 1, 5⟩, ⟨1, 1, 7⟩]).map (fun r => (r.person, r.vend))).Nodup ∧
    containFilter [⟨1, 1, 5⟩, ⟨1, 3, 3⟩] = containFilter [⟨1, 3, 3⟩] ∧
    consolidateVisits [⟨1, 1, 5⟩, ⟨1, 3, 3⟩] = [⟨1, 3, 3⟩] :=
  crossdup_resolution [⟨1, 1, 5⟩, ⟨1, 1, 7⟩] ⟨1, 1, 5⟩ ⟨1, 3, 3⟩ []
    (by decide) (by decide) (by decide)

/-- One cohort row of the `patients` frame: `person_id` and the reference
date column (`index_date` by default); the reference date may be missing
(pandas `NaT`). -/
structure PRow where
  person : ℕ
  ref : Option ℤ
deriving DecidableEq

/-- One row of `patients.merge(number_of_visits_in_period, how='left')`
before `fillna`: the count column is missing for patients without a count
row. -/
structure MergedRow where
  person : ℕ
  ref : Option ℤ
  cnt : Option ℕ
deriving DecidableEq

/-- One row after `patients.fillna(0)`: every missing value of the whole
frame, whichever column it sits in, has been replaced by 0. -/
structure CRow where
  person : ℕ
  ref : ℤ
  cnt : ℕ
deriving DecidableEq

/-- Line 100 of `get_hcru.py`:
`patients.merge(number_of_visits_in_period, on='person_id', how='left')` —
every cohort row is kept in order, paired with each count row of the same
person (or with a missing count when there is none). -/
def leftMerge : List PRow → List (ℕ × ℕ) → List MergedRow
  | [], _ => []
  | pr :: t, counts =>
      (if (counts.filter (fun c => c.1 = pr.person)).isEmpty then
        [⟨pr.person, pr.ref, none⟩]
      else
        (counts.filter (fun c => c.1 = pr.person)).map
          (fun c => ⟨pr.person, pr.ref, some c.2⟩)) ++ leftMerge t counts

/-- Line 101 of `get_hcru.py`: `patients = patients.fillna(0)` — applied to
the whole frame, so the reference-date column is filled as well as the
count column. -/
def fillna0 (l : List MergedRow) : List CRow :=
  l.map (fun r => ⟨r.person, r.ref.getD 0, r.cnt.getD 0⟩)

/-- Row-level window test of lines 77-78 of `get_hcru.py`: the visit must
start no later than `ref + period_end` and end no earlier than
`ref + period_start`; a missing reference date fails every comparison, as
pandas `NaT` comparisons are false. -/
def inWindow (ref : Option ℤ) (ps pe : ℤ) (v : VRow) : Bool :=
  match ref with
  | some r => decide (v.vstart ≤ r + pe ∧ r + ps ≤ v.vend)
  | none => false

/-- Lines 75-78 of `get_hcru.py`: inner-merge the cohort with the fetched
visit rows on `person_id` (cohort order outermost, as pandas keeps the left
frame's order) and keep the rows inside the patient's window. -/
def periodVisits (patients : List PRow) (ps pe : ℤ) (vs : List VRow) : List VRow :=
  patients.flatMap (fun pr =>
    vs.filter (fun v => decide (v.person = pr.person) && inWindow pr.ref ps pe v))

/-- Lines 74-93 of `get_hcru.py` for one label: the per-patient counts of
distinct start dates after windowing and de-duplication. -/
def hcru_label_counts (patients : List PRow) (ps pe : ℤ) (vs : List VRow) : List (ℕ × ℕ) :=
  countsOf (consolidateVisits (periodVisits patients ps pe vs))

/-- Lines 100-101 of `get_hcru.py`: merge the counts back onto the cohort
and fill every missing value of the whole frame with 0. -/
def hcru_merge_back (patients : List PRow) (counts : List (ℕ × ℕ)) : List CRow :=
  fillna0 (leftMerge patients counts)

/-- One iteration of the label loop of `calculate_HCRU` (lines 72-101 of
`get_hcru.py`).  Line 95 renames the count column from `visit_start_date` to
`{key}_{period_start}-{period_end}`, so after the rename the frame's columns
are `person_id` and that label; line 97 then reads
`number_of_visits_in_period['visit_start_date']` for the data-quality
diagnostic, which raises `KeyError` unless one of the remaining columns is
literally named `visit_start_date`.  Only on that (impossible for the
`{key}_{start}-{end}` scheme) branch would the merge of lines 100-101 be
reached. -/
def calculate_HCRU_label (key : String) (patients : List PRow) (ps pe : ℤ)
    (vs : List VRow) : Except String (List CRow) :=
  if "visit_start_date" = "person_id" ∨
      "visit_start_date" = key ++ "_" ++ toString ps ++ "-" ++ toString pe then
    Except.ok (hcru_merge_back patients (hcru_label_counts patients ps pe vs))
  else Except.error "KeyError: visit_start_date"

/-- On a frame whose keys are pairwise distinct, filtering by one key returns
the `find?` result (at most one row). -/
theorem filter_eq_find_toList (counts : List (ℕ × ℕ)) (p : ℕ)
    (h : (counts.map Prod.fst).Nodup) :
    counts.filter (fun c => c.1 = p) = (counts.find? (fun c => c.1 = p)).toList := by
  induction counts with
  | nil => rfl
  | cons c t ih =>
    rw [List.map_cons, List.nodup_cons] at h
    obtain ⟨hc, ht⟩ := h
    by_cases hp : c.1 = p
    · rw [List.filter_cons_of_pos (by simpa using hp),
        List.find?_cons_of_pos _ (by simpa using hp)]
      have hnil : t.filter (fun c => c.1 = p) = [] := by
        rw [List.filter_eq_nil_iff]
        intro x hx
        simp only [decide_eq_true_eq]
        intro hxp
        exact hc (List.mem_map.mpr ⟨x, hx, hxp.trans hp.symm⟩)
      rw [hnil]
      rfl
    · rw [List.filter_cons_of_neg (by simpa using hp),
        List.find?_cons_of_neg _ (by simpa using hp)]
      exact ih ht

/-- When the count frame has pairwise-distinct persons, the left merge is a
per-row map of the cohort: each cohort row is kept exactly once, annotated
with its (optional) count. -/
theorem leftMerge_eq_map (patients : List PRow) (counts : List (ℕ × ℕ))
    (h : (counts.map Prod.fst).Nodup) :
    leftMerge patients counts = patients.map (fun pr =>
      ⟨pr.person, pr.ref, (counts.find? (fun c => c.1 = pr.person)).map Prod.snd⟩) := by
  induction patients with
  | nil => rfl
  | cons pr t ih =>
    rw [leftMerge, List.map_cons, filter_eq_find_toList counts pr.person h, ih]
    cases hf : counts.find? (fun c => c.1 = pr.person) with
    | none => rfl
    | some c => rfl

/-- The merged-and-filled frame is a per-row map of the cohort whenever the
count frame has pairwise-distinct persons. -/
theorem hcru_merge_back_eq (patients : List PRow) (counts : List (ℕ × ℕ))
    (h : (counts.map Prod.fst).Nodup) :
    hcru_merge_back patients counts = patients.map (fun pr =>
      ⟨pr.person, pr.ref.getD 0,
        (((counts.find? (fun c => c.1 = pr.person)).map Prod.snd).getD 0)⟩) := by
  unfold hcru_merge_back fillna0
  rw [leftMerge_eq_map patients counts h, List.map_map]
  rfl

/-- The count frame built by `groupby('person_id')` has pairwise-distinct
persons. -/
theorem countsOf_fst_nodup (l : List VRow) : ((countsOf l).map Prod.fst).Nodup := by
  unfold countsOf
  rw [List.map_map]
  rw [show (Prod.fst ∘ fun p =>
    (p, ((l.filter (fun r => r.person = p)).map (fun r => r.vstart)).dedup.length)) = id from rfl]
  rw [List.map_id]
  unfold sortNat
  exact ((List.perm_insertionSort _ _).nodup_iff).mpr (List.nodup_dedup _)

/-- Every person of the count frame has a row in the counted frame. -/
theorem mem_countsOf_fst (l : List VRow) (p : ℕ) (h : p ∈ (countsOf l).map Prod.fst) :
    ∃ r ∈ l, r.person = p := by
  unfold countsOf at h
  rw [List.map_map] at h
  rw [show (Prod.fst ∘ fun p =>
    (p, ((l.filter (fun r => r.person = p)).map (fun r => r.vstart)).dedup.length)) = id from rfl] at h
  rw [List.map_id] at h
  unfold sortNat at h
  rw [List.mem_insertionSort, List.mem_dedup, List.mem_map] at h
  obtain ⟨r, hr, hp⟩ := h
  exact ⟨r, hr, hp⟩

/-- The successor-containment mask only removes rows. -/
theorem containFilter_subset : ∀ (l : List VRow) (x : VRow), x ∈ containFilter l → x ∈ l := by
  intro l
  induction l with
  | nil => intro x hx; simp [containFilter] at hx
  | cons a t ih =>
    cases t with
    | nil =>
      intro x hx
      simp [containFilter] at hx
      simp [hx]
    | cons b t2 =>
      intro x hx
      rw [containFilter] at hx
      rcases List.mem_append.mp hx with h1 | h2
      · split at h1
        · simp at h1
        · rw [List.mem_singleton] at h1
          exact h1 ▸ List.mem_cons_self _ _
      · exact List.mem_cons_of_mem _ (ih x h2)

/-- `drop_duplicates` only removes rows. -/
theorem keepFirstBy_subset (f : VRow → ℕ × ℤ) :
    ∀ (seen : List (ℕ × ℤ)) (l : List VRow) (x : VRow), x ∈ keepFirstBy f seen l → x ∈ l := by
  intro seen l
  induction l generalizing seen with
  | nil => intro x hx; simp [keepFirstBy] at hx
  | cons a t ih =>
    intro x hx
    rw [keepFirstBy] at hx
    by_cases h : f a ∈ seen
    · rw [if_pos h] at hx
      exact List.mem_cons_of_mem _ (ih seen x hx)
    · rw [if_neg h] at hx
      rcases List.mem_cons.mp hx with h1 | h1
      · exact h1 ▸ List.mem_cons_self _ _
      · exact List.mem_cons_of_mem _ (ih _ x h1)

/-- Every row surviving the full de-duplication pipeline was an input row. -/
theorem consolidateVisits_subset (l : List VRow) (x : VRow)
    (h : x ∈ consolidateVisits l) : x ∈ l := by
  unfold consolidateVisits at h
  have h1 := containFilter_subset _ _ h
  have h2 := keepFirstBy_subset _ _ _ _ h1
  have h3 := keepFirstBy_subset _ _ _ _ h2
  unfold sortVisits at h3
  exact (List.mem_insertionSort _).mp h3

/-- C5: the merged-back frame of lines 100-101 of `get_hcru.py` has exactly
one row per cohort row, in cohort order with persons unchanged, and a
patient none of whose windowed visit rows survive receives count 0 rather
than being absent. -/
theorem consolidate_one_row_per_patient (patients : List PRow) (ps pe : ℤ) (vs : List VRow) :
    (hcru_merge_back patients (hcru_label_counts patients ps pe vs)).length = patients.length ∧
    (hcru_merge_back patients (hcru_label_counts patients ps pe vs)).map (fun r => r.person)
      = patients.map (fun pr => pr.person) ∧
    (∀ pr ∈ patients,
      (∀ v ∈ periodVisits patients ps pe vs, v.person ≠ pr.person) →
      ∀ r ∈ hcru_merge_back patients (hcru_label_counts patients ps pe vs),
        r.person = pr.person → r.cnt = 0) := by
  have hnodup : ((hcru_label_counts patients ps pe vs).map Prod.fst).Nodup := by
    unfold hcru_label_counts
    exact countsOf_fst_nodup _
  have heq := hcru_merge_back_eq patients (hcru_label_counts patients ps pe vs) hnodup
  refine ⟨?_, ?_, ?_⟩
  · rw [heq, List.length_map]
  · rw [heq, List.map_map]
    rfl
  · intro pr hpr hnone r hr hrp
    rw [heq, List.mem_map] at hr
    obtain ⟨pr2, hpr2, hr2⟩ := hr
    subst hr2
    have hrp2 : pr2.person = pr.person := hrp
    have hfind : (hcru_label_counts patients ps pe vs).find? (fun c => c.1 = pr2.person)
        = none := by
      rw [List.find?_eq_none]
      intro c hc
      simp only [decide_eq_true_eq]
      intro hceq
      have hcmem : c.1 ∈ (hcru_label_counts patients ps pe vs).map Prod.fst :=
        List.mem_map_of_mem Prod.fst hc
      unfold hcru_label_counts at hcmem
      obtain ⟨v, hv, hvp⟩ := mem_countsOf_fst _ _ hcmem
      have hvmem := consolidateVisits_subset _ _ hv
      exact hnone v hvmem (by rw [hvp, hceq, hrp2])
    show (((hcru_label_counts patients ps pe vs).find?
      (fun c => c.1 = pr2.person)).map Prod.snd).getD 0 = 0
    rw [hfind]
    rfl

/-- Witness for C5: a one-patient cohort with no visit rows at all still
gets its row, with count 0. -/
theorem consolidate_one_row_per_patient_witness :
    (hcru_merge_back [⟨5, some 0⟩] (hcru_label_counts [⟨5, some 0⟩] 0 0 [])).length = 1 ∧
    ((hcru_merge_back [⟨5, some 0⟩]
      (hcru_label_counts [⟨5, some 0⟩] 0 0 [])).getD 0 ⟨0, 0, 0⟩).cnt = 0 := by
  have h := consolidate_one_row_per_patient [⟨5, some 0⟩] 0 0 []
  exact ⟨h.1, h.2.2 ⟨5, some 0⟩ (by decide) (by decide) _ (by decide) (by decide)⟩

/-- C10: merging a label's counts back ends with `patients.fillna(0)` over
the whole frame, so the returned rows carry `ref := pr.ref.getD 0` — a
caller-supplied missing reference date is overwritten with 0 — as the
concrete cohort row with a missing reference date shows. -/
theorem fillna_overwrites_whole_frame (patients : List PRow) (ps pe : ℤ) (vs : List VRow) :
    hcru_merge_back patients (hcru_label_counts patients ps pe vs)
      = patients.map (fun pr =>
          ⟨pr.person, pr.ref.getD 0,
            (((hcru_label_counts patients ps pe vs).find?
              (fun c => c.1 = pr.person)).map Prod.snd).getD 0⟩) ∧
    hcru_merge_back [⟨7, none⟩] [] = [⟨7, 0, 0⟩] := by
  refine ⟨hcru_merge_back_eq patients _ ?_, by decide⟩
  unfold hcru_label_counts
  exact countsOf_fst_nodup _

/-- C8 (code bug): the data-quality diagnostic of line 97 of `get_hcru.py`
reads the column `visit_start_date` from the count frame after line 95
renamed that column to `{key}_{period_start}-{period_end}`, so the label
loop aborts with `KeyError` on its first iteration instead of emitting the
documented non-fatal `UserWarning` and returning a result. -/
theorem hcru_diagnostic_keyerror (patients : List PRow) (vs : List VRow) :
    calculate_HCRU_label "IP" patients 0 0 vs
      = Except.error "KeyError: visit_start_date" := by
  unfold calculate_HCRU_label
  rw [if_neg (by decide)]
